import Mathlib

/-!
# Verification of the sidplayfp INI configuration core

Shallow embedding of the document store (`src/src/ini/iniHandler.cpp`) and the
typed settings reader (`IniConfig.cpp`, provided unnamed) of the sidplayfp
repository, together with theorems settling the frozen claims about them.

C++ `std::string` values are modelled as `List Char` (one element per byte of
the narrow string; all inputs exercised by the claims are ASCII, where bytes
and code points coincide).  Machine `int` arithmetic is modelled as `Int` with
explicit 32-bit range checks at the points where the C++ code can overflow.
-/

set_option maxRecDepth 4096

abbrev Str := List Char

/-- One line of a section: either a real key/value pair (`key` non-empty) or a
comment passthrough entry (`key` empty, `value` the raw line).  Mirrors
`iniHandler::stringPair_t` (`std::pair<std::string, std::string>`). -/
structure Entry where
  key : Str
  value : Str
deriving Repr, DecidableEq

/-- `iniHandler::keyPair_t`: a section name paired with its ordered entries. -/
abbrev SectionT := Str × List Entry

/-- The in-memory state of `iniHandler`: the ordered section list, the current
selection (`curSection`, an iterator modelled as an index; `none` stands for
`end()` / no valid selection, where the C++ key operations are undefined), and
the dirty flag `changed`. -/
structure IniHandler where
  sections : List SectionT
  cur : Option Nat
  changed : Bool
deriving Repr, DecidableEq

/-- `iniHandler::parseSection`: the substring strictly between `[` (position 0,
guaranteed by the caller) and the first `]`; `none` models the thrown
`parseError` when there is no closing bracket. -/
def parseSection (cs : Str) : Option Str :=
  match cs.findIdx? (fun c => c == ']') with
  | none => none
  | some pos => some ((cs.drop 1).take (pos - 1))

/-- `iniHandler::parseKey`: split on the first `=`; the key is the prefix with
trailing spaces trimmed (when `=` is the first character, the C++ size_t
`pos-1` wraps to `npos`, so `find_last_not_of` scans the whole string), the
value starts at the first non-space after `=` (empty when none).  `none`
models the thrown `parseError` when the line has no `=`. -/
def parseKey (cs : Str) : Option Entry :=
  match cs.findIdx? (fun c => c == '=') with
  | none => none
  | some pos =>
    let pref := if pos = 0 then cs else cs.take pos
    let keyLen := match pref.reverse.findIdx? (fun c => c != ' ') with
      | none => 0
      | some j => pref.length - j
    let rest := cs.drop (pos + 1)
    let value := match rest.findIdx? (fun c => c != ' ') with
      | none => ([] : Str)
      | some j => rest.drop j
    some ⟨cs.take keyLen, value⟩

/-- Append an entry to the last section of the list (`sections.back()`);
the empty list is left unchanged, mirroring the `!sections.empty()` guards in
`iniHandler::tryOpen`. -/
def appendToLast : List SectionT → Entry → List SectionT
  | [], _ => []
  | [s], e => [(s.1, s.2 ++ [e])]
  | s :: s' :: rest, e => s :: appendToLast (s' :: rest) e

/-- One iteration of the `getline` loop of `iniHandler::tryOpen`: empty lines
are skipped; `;`/`#` lines become comment entries of the most recent section
(dropped when no section is open yet); `[` lines open a new section (skipped
when malformed); anything else is a key/value line appended to the most recent
section (dropped when no section is open, or malformed). -/
def parseLine (secs : List SectionT) (cs : Str) : List SectionT :=
  match cs with
  | [] => secs
  | c :: _ =>
    if c == ';' || c == '#' then
      appendToLast secs ⟨[], cs⟩
    else if c == '[' then
      match parseSection cs with
      | some name => secs ++ [(name, [])]
      | none => secs
    else if secs.isEmpty then secs
    else
      match parseKey cs with
      | some e => appendToLast secs e
      | none => secs

/-- The whole parse loop of `iniHandler::tryOpen`, starting from an empty
section list, over the lines of the file (as produced by `getline`: no
newline characters, empty lines possible). -/
def parseDoc (lines : List Str) : List SectionT :=
  lines.foldl parseLine []

/-- `iniHandler::tryOpen` as a state transformer: parses the given lines onto
the existing section list (the C++ code pushes onto `sections` without
clearing it) and leaves the selection and the dirty flag untouched. -/
def tryOpen (h : IniHandler) (lines : List Str) : IniHandler :=
  { h with sections := lines.foldl parseLine h.sections }

/-- One output line of `iniHandler::write` for an entry: `key = value` for real
pairs, the raw `value` alone for comment passthrough entries (empty key). -/
def writeEntry (e : Entry) : Str :=
  if e.key.isEmpty then e.value else e.key ++ (' ' :: '=' :: ' ' :: e.value)

/-- The output lines of `iniHandler::write` for one section: the `[name]`
header, each entry, and a final blank line. -/
def writeSection (s : SectionT) : List Str :=
  (('[' :: s.1) ++ [']']) :: (s.2.map writeEntry ++ [[]])

/-- The full serialization of `iniHandler::write` as a list of output lines. -/
def writeLines (doc : List SectionT) : List Str :=
  doc.foldr (fun s acc => writeSection s ++ acc) []

/-- `iniHandler::setSection`: select the first section whose name matches
exactly; on failure the C++ iterator is left at `end()` (modelled `none`). -/
def setSection (h : IniHandler) (name : Str) : Bool × IniHandler :=
  match h.sections.findIdx? (fun p => p.1 == name) with
  | some i => (true, { h with cur := some i })
  | none => (false, { h with cur := none })

/-- `iniHandler::getValue`: first entry of the selected section whose key
matches, `none` when absent.  With no valid selection the C++ code
dereferences an invalid iterator (undefined behaviour); that case is modelled
as `none` and is excluded by the selected-section hypotheses of the claims. -/
def getValue (h : IniHandler) (key : Str) : Option Str :=
  match h.cur with
  | none => none
  | some i =>
    match h.sections.get? i with
    | none => none
    | some sec =>
      match sec.2.find? (fun e => e.key == key) with
      | some e => some e.value
      | none => none

/-- `iniHandler::addSection`: insert a new empty section at the current
selection position (`end()`, i.e. the back, when there is no selection), make
it current, and set the dirty flag. -/
def addSection (h : IniHandler) (name : Str) : IniHandler :=
  let pos := h.cur.getD h.sections.length
  { sections := h.sections.insertIdx pos (name, []),
    cur := some pos,
    changed := true }

/-- `iniHandler::addValue`: append a key/value entry to the selected section
and set the dirty flag.  With no valid selection the C++ code is undefined;
modelled as leaving the sections untouched (excluded by the claims). -/
def addValue (h : IniHandler) (key value : Str) : IniHandler :=
  match h.cur with
  | none => { h with changed := true }
  | some i =>
    { h with
      sections := h.sections.modify (fun s => (s.1, s.2 ++ [⟨key, value⟩])) i,
      changed := true }

/-- The entry list produced by `iniHandler::removeValue`'s
`erase(remove_if(begin, end, pred))`.  `std::remove_if` compacts the
non-matching entries to the front, returns the new logical end, and leaves the
`k` trailing slots holding moved-from values that the C++ standard leaves
unspecified; `erase` with that single iterator then removes exactly one
element.  The unspecified `k - 1` surviving tail values are taken as the
parameter `junk` (theorems assume `junk.length = k - 1`).  When no entry
matches, `remove_if` returns `end()` and `erase(end())` is undefined
behaviour, modelled as `none`. -/
def removeValueEntries (junk : List Entry) (key : Str) (es : List Entry) : Option (List Entry) :=
  if es.countP (fun e => e.key == key) = 0 then none
  else some (es.filter (fun e => e.key != key) ++ junk)

/-- `iniHandler::removeValue` on the handler state: rewrites the selected
section's entries per `removeValueEntries` and sets the dirty flag; `none`
models the undefined cases (no selection, or no matching entry). -/
def removeValue (junk : List Entry) (h : IniHandler) (key : Str) : Option IniHandler :=
  match h.cur with
  | none => none
  | some i =>
    match h.sections.get? i with
    | none => none
    | some sec =>
      match removeValueEntries junk key sec.2 with
      | none => none
      | some es =>
        some { h with sections := h.sections.set i (sec.1, es), changed := true }

/-- `iniHandler::close`: the first component is the file content written back
(`some` of the serialized lines exactly when the dirty flag is set, `none`
when nothing is written); the second is the state afterwards — sections
cleared and the flag reset (the C++ `sections.clear()` also invalidates the
selection iterator, modelled `cur := none`). -/
def close (h : IniHandler) : Option (List Str) × IniHandler :=
  (if h.changed then some (writeLines h.sections) else none,
   { sections := [], cur := none, changed := false })

/-! ## Typed settings reader (IniConfig.cpp static helpers) -/

/-- `readKey`: look the key up in the selected section; when absent, add it
with an empty value (marking the document dirty) and fall through to
`return value`, which is still the null pointer; when present but empty,
return null (`// Ignore empty values`); otherwise return the value. -/
def readKey (h : IniHandler) (key : Str) : Option Str × IniHandler :=
  match getValue h key with
  | none => (none, addValue h key [])
  | some v => if v.isEmpty then (none, h) else (some v, h)

/-- `readString`: like `readKey` but returning the value as a string, with the
empty string standing for both "absent" (after inserting the placeholder) and
"present but empty". -/
def readString (h : IniHandler) (key : Str) : Str × IniHandler :=
  match getValue h key with
  | none => ([], addValue h key [])
  | some v => (v, h)

/-- The common shape of `readInt` / `readDouble` / `readBool`: `readKey`, then
parse; on a null/empty value return with the target untouched; on a parse
failure (the caught `dataParser::parseError`) report `msg ++ key` and leave
the target untouched.  The third component collects the `error(...)` output. -/
def readTyped {α : Type} (parse : Str → Option α) (msg : Str)
    (h : IniHandler) (key : Str) (result : α) : α × IniHandler × List Str :=
  match readKey h key with
  | (none, h1) => (result, h1, [])
  | (some v, h1) =>
    match parse v with
    | some x => (x, h1, [])
    | none => (result, h1, [msg ++ key])

def isSpaceChar (c : Char) : Bool :=
  c == ' ' || c == '\t' || c == '\n' || c == '\x0b' || c == '\x0c' || c == '\r'

def isDigitChar (c : Char) : Bool :=
  48 ≤ c.toNat && c.toNat ≤ 57

def natOfDigits (ds : Str) : Nat :=
  ds.foldl (fun a c => a * 10 + (c.toNat - 48)) 0

def int32Max : Int := 2147483647

def int32Min : Int := -2147483648

/-- The longest leading run of decimal digits, as a number; `none` when there
is no digit at the front. -/
def parseDigits (cs : Str) : Option Nat :=
  let ds := cs.takeWhile isDigitChar
  if ds.isEmpty then none else some (natOfDigits ds)

/-- Modelled from the spec: the repository's numeric string parser
(`dataParser.h`, used by all integer/boolean coercions) is not under `src/`.
The spec says the integer coercion "delegates to a numeric string parser", and
its worked examples (`"1:30.500"` → 90500 ms, where the code's seconds
substring is `"30."`) pin `std::stoi` semantics: skip leading whitespace, an
optional sign, then the longest run of decimal digits gives the value and any
trailing characters are ignored; no digits (`std::invalid_argument`) or a
value outside `int` (`std::out_of_range`) raise the parse error, modelled as
`none`. -/
def parseInt (cs : Str) : Option Int :=
  let body := cs.dropWhile isSpaceChar
  let signed : Option Int :=
    match body with
    | [] => none
    | c :: t =>
      if c == '-' then
        match parseDigits t with
        | none => none
        | some n => some (-(n : Int))
      else if c == '+' then
        match parseDigits t with
        | none => none
        | some n => some ((n : Int))
      else
        match parseDigits (c :: t) with
        | none => none
        | some n => some ((n : Int))
  match signed with
  | none => none
  | some v => if v < int32Min ∨ v > int32Max then none else some v

/-- Modelled from the spec: `dataParser::parseBool` (not under `src/`) parses
via the integer parser and tests the result against zero. -/
def parseBool (cs : Str) : Option Bool :=
  (parseInt cs).map (fun v => decide (v ≠ 0))

def errIntMsg : Str := "Error parsing int at ".toList

def errDoubleMsg : Str := "Error parsing double at ".toList

def errBoolMsg : Str := "Error parsing bool at ".toList

/-- `readInt`: integer coercion with the `int` target left unchanged on a
null/empty value or a parse failure. -/
def readInt (h : IniHandler) (key : Str) (result : Int) : Int × IniHandler × List Str :=
  readTyped parseInt errIntMsg h key result

/-- `readBool`: boolean coercion with the target left unchanged on a
null/empty value or a parse failure. -/
def readBool (h : IniHandler) (key : Str) (result : Bool) : Bool × IniHandler × List Str :=
  readTyped parseBool errBoolMsg h key result

/-- `readDouble`: `dataParser::parseDouble` is not under `src/` and no claim
depends on its value semantics, so the parser is a parameter; the
control flow (null/empty value, parse failure) is the code's. -/
def readDouble {α : Type} (parseD : Str → Option α)
    (h : IniHandler) (key : Str) (result : α) : α × IniHandler × List Str :=
  readTyped parseD errDoubleMsg h key result

/-- `readChar`: the target is the character's byte value (C++ `char &ch`,
compared through `(unsigned) c >= 32`, which accepts exactly the byte values
outside 0..31).  A value starting with a single quote takes `str[2]` — with no
length check: on the one-character string `"'"` that indexes past the
terminator of a length-1 string, which is undefined behaviour (`none`); on a
length-2 string `str[2]` is the guaranteed NUL terminator, never a quote.
Otherwise the value is parsed as an integer and truncated to a byte (`char`
conversion); a parse failure reports the key and leaves `c = 0`, which the
`>= 32` clip then rejects. -/
def readChar (h : IniHandler) (key : Str) (ch : Nat) :
    Option (Nat × IniHandler × List Str) :=
  let p := readString h key
  let str := p.1
  let h1 := p.2
  match str with
  | [] => some (ch, h1, [])
  | c0 :: restStr =>
    if c0 == '\'' then
      if restStr.isEmpty then none
      else if str.getD 2 '\x00' == '\'' then
        let c := (str.getD 1 ' ').toNat % 256
        some (if 32 ≤ c then (c, h1, []) else (ch, h1, []))
      else some (ch, h1, [])
    else
      match parseInt str with
      | some v =>
        let c := (v % 256).toNat
        some (if 32 ≤ c then (c, h1, []) else (ch, h1, []))
      | none => some (ch, h1, [errIntMsg ++ key])

/-- The outcome of `readTime` on one value string: `ok ms` is a successful
parse (return true with `value` set), `noValue` is the silent early return on
an empty string, `parseFail` is the caught `dataParser::parseError`
("Error parsing time at "), `invalid` is the range/digit-count error
("Invalid time at "), and `undef` marks the signed-`int` overflow of
`time * 1000 + milliseconds`, which is undefined behaviour in C++. -/
inductive TimeResult where
  | ok (ms : Int)
  | noValue
  | parseFail
  | invalid
  | undef
deriving Repr, DecidableEq

/-- The `switch (msec.length())` scaling of fractional digits: 1 digit ×100,
2 digits ×10, 3 digits as-is, anything else an error. -/
def msecScale (len : Nat) : Option Int :=
  if len = 1 then some 100 else if len = 2 then some 10
  else if len = 3 then some 1 else none

/-- The final `value = time * 1000 + milliseconds` in 32-bit `int` arithmetic:
undefined when either the product or the sum overflows. -/
def finishTime (time ms : Int) : TimeResult :=
  if time * 1000 < int32Min ∨ time * 1000 > int32Max then .undef
  else if time * 1000 + ms < int32Min ∨ time * 1000 + ms > int32Max then .undef
  else .ok (time * 1000 + ms)

/-- The body of `readTime` on a non-empty value string `cs`.  Mirrors the C++
control flow: no `:` means bare seconds; otherwise minutes are the prefix
before `:` (range-checked to 0..99 before anything else), and with a `.` the
seconds substring is `substr(sep+1, dot-sep)` — one character too many, so it
includes the dot itself (and when the dot precedes the colon the size_t count
wraps and `substr` clamps it to the rest of the string); the fractional part
is parsed and its digit count checked before the seconds range check. -/
def readTimeValue (cs : Str) : TimeResult :=
  match cs.findIdx? (fun c => c == ':') with
  | none =>
    match parseInt cs with
    | none => .parseFail
    | some t => finishTime t 0
  | some sep =>
    match parseInt (cs.take sep) with
    | none => .parseFail
    | some mn =>
      if mn < 0 ∨ mn > 99 then .invalid
      else
        match cs.findIdx? (fun c => c == '.') with
        | none =>
          match parseInt (cs.drop (sep + 1)) with
          | none => .parseFail
          | some sec =>
            if sec < 0 ∨ sec > 59 then .invalid
            else finishTime (mn * 60 + sec) 0
        | some dot =>
          let cnt := if sep ≤ dot then dot - sep else cs.length
          match parseInt ((cs.drop (sep + 1)).take cnt) with
          | none => .parseFail
          | some sec =>
            let msecCs := cs.drop (dot + 1)
            match parseInt msecCs with
            | none => .parseFail
            | some msRaw =>
              match msecScale msecCs.length with
              | none => .invalid
              | some k =>
                if sec < 0 ∨ sec > 59 then .invalid
                else finishTime (mn * 60 + sec) (msRaw * k)

def errTimeMsg : Str := "Error parsing time at ".toList

def errInvalidTimeMsg : Str := "Invalid time at ".toList

/-- `readTime` on the handler state: `readString`, early return on empty,
then `readTimeValue`, with the `error(...)` output it produces. -/
def readTime (h : IniHandler) (key : Str) : TimeResult × IniHandler × List Str :=
  let p := readString h key
  if p.1.isEmpty then (.noValue, p.2, [])
  else
    let r := readTimeValue p.1
    (r, p.2,
      match r with
      | .parseFail => [errTimeMsg ++ key]
      | .invalid => [errInvalidTimeMsg ++ key]
      | _ => [])

/-- How the callers of `readTime` apply its outcome to a field
(`int time; if (readTime(ini, key, time)) field = time;`): the field is
overwritten exactly on success. -/
def applyTime (r : TimeResult) (field : Int) : Int :=
  match r with
  | .ok v => v
  | _ => field

/-- The fixed 16-entry color name table `colorStrings`, in index order. -/
def colorStrings : List Str :=
  ["black", "red", "green", "yellow", "blue", "magenta", "cyan", "white",
   "bright black", "bright red", "bright green", "bright yellow",
   "bright blue", "bright magenta", "bright cyan", "bright white"].map
    String.toList

/-- `readColor`: the target is the `color_t` index.  Case-sensitive scan of
`colorStrings` in index order; the first exact match sets the field; an empty
or unmatched value returns with the field untouched and produces no error
output. -/
def readColor (h : IniHandler) (key : Str) (field : Nat) : Nat × IniHandler × List Str :=
  let p := readString h key
  if p.1.isEmpty then (field, p.2, [])
  else
    match colorStrings.findIdx? (fun c => c == p.1) with
    | some i => (i, p.2, [])
    | none => (field, p.2, [])

/-! ## IniConfig console group -/

/-- The `console_s` record of `IniConfig`: the ANSI switch, the eight border
glyph strings, and the nine `color_t` fields (stored as table indices). -/
structure ConsoleS where
  ansi : Bool
  topLeft : Str
  topRight : Str
  bottomLeft : Str
  bottomRight : Str
  vertical : Str
  horizontal : Str
  junctionLeft : Str
  junctionRight : Str
  decorations : Nat
  title : Nat
  label_core : Nat
  text_core : Nat
  label_extra : Nat
  text_extra : Nat
  notes : Nat
  control_on : Nat
  control_off : Nat
deriving Repr, DecidableEq

/-- The console defaults established by `IniConfig::clear()` (box-drawing
glyphs and the bright color scheme; `color_t` values are `colorStrings`
indices, e.g. `bright_white = 15`). -/
def consoleDefaults : ConsoleS :=
  { ansi := false
    topLeft := "┌".toList
    topRight := "┐".toList
    bottomLeft := "└".toList
    bottomRight := "┘".toList
    vertical := "│".toList
    horizontal := "─".toList
    junctionLeft := "┤".toList
    junctionRight := "├".toList
    decorations := 15
    title := 7
    label_core := 10
    text_core := 11
    label_extra := 13
    text_extra := 14
    notes := 12
    control_on := 10
    control_off := 9 }

/-- The `if (!ini.setSection("Console")) ini.addSection("Console");` prelude
of `IniConfig::readConsole`. -/
def consoleSel (h : IniHandler) : IniHandler :=
  let p := setSection h ("Console".toList)
  if p.1 then p.2 else addSection p.2 ("Console".toList)

/-- The ASCII replacement glyphs assigned when the `ASCII` switch is true. -/
def asciiOverwrite (c : ConsoleS) : ConsoleS :=
  { c with
    topLeft := "+".toList
    topRight := "+".toList
    bottomLeft := "+".toList
    bottomRight := "+".toList
    vertical := "|".toList
    horizontal := "-".toList
    junctionLeft := "+".toList
    junctionRight := "+".toList }

/-- The eight glyph fields, in declaration order. -/
def glyphsOf (c : ConsoleS) : List Str :=
  [c.topLeft, c.topRight, c.bottomLeft, c.bottomRight,
   c.vertical, c.horizontal, c.junctionLeft, c.junctionRight]

set_option maxHeartbeats 1000000 in
/-- `IniConfig::readConsole`.  The local `bool ascii;` is declared without an
initializer and `readBool` only assigns it when the value parses, so the value
it holds when the key is absent, empty or unparsable is whatever was on the
stack: that indeterminate initial content is the explicit parameter
`asciiInit`. -/
def readConsole (asciiInit : Bool) (h : IniHandler) (c : ConsoleS) :
    ConsoleS × IniHandler × List Str :=
  let h0 := consoleSel h
  let pa := readBool h0 ("ASCII".toList) asciiInit
  let c1 := if pa.1 then asciiOverwrite c else c
  let pb := readBool pa.2.1 ("Ansi".toList) c1.ansi
  let c2 := { c1 with ansi := pb.1 }
  let p1 := readColor pb.2.1 ("Color Decorations".toList) c2.decorations
  let c3 := { c2 with decorations := p1.1 }
  let p2 := readColor p1.2.1 ("Color Title".toList) c3.title
  let c4 := { c3 with title := p2.1 }
  let p3 := readColor p2.2.1 ("Color Label Core".toList) c4.label_core
  let c5 := { c4 with label_core := p3.1 }
  let p4 := readColor p3.2.1 ("Color Text Core".toList) c5.text_core
  let c6 := { c5 with text_core := p4.1 }
  let p5 := readColor p4.2.1 ("Color Label Extra".toList) c6.label_extra
  let c7 := { c6 with label_extra := p5.1 }
  let p6 := readColor p5.2.1 ("Color Text Extra".toList) c7.text_extra
  let c8 := { c7 with text_extra := p6.1 }
  let p7 := readColor p6.2.1 ("Color Notes".toList) c8.notes
  let c9 := { c8 with notes := p7.1 }
  let p8 := readColor p7.2.1 ("Color Control On".toList) c9.control_on
  let c10 := { c9 with control_on := p8.1 }
  let p9 := readColor p8.2.1 ("Color Control Off".toList) c10.control_off
  let c11 := { c10 with control_off := p9.1 }
  (c11, p9.2.1,
    pa.2.2 ++ pb.2.2 ++ p1.2.2 ++ p2.2.2 ++ p3.2.2 ++ p4.2.2 ++
      p5.2.2 ++ p6.2.2 ++ p7.2.2 ++ p8.2.2 ++ p9.2.2)

/-! ## Claims -/

/-- C1: the claim says `removeValue(key)` removes all entries in the selected
section whose key matches.  Evaluating the code at a section holding two
entries with key `k`: `erase(remove_if(...))` erases only the single element
at the iterator `remove_if` returns, so one (moved-from, here `⟨[], []⟩`)
entry survives — the section ends with 1 entry instead of 0 — and when no
entry matches, `erase(end())` is undefined behaviour (`none`).  The dirty
flag is set as claimed. -/
theorem claim1_removeValue_erases_single :
    removeValue [⟨[], []⟩]
        ⟨[(['S'], [⟨['k'], ['1']⟩, ⟨['k'], ['2']⟩])], some 0, false⟩ ['k']
      = some ⟨[(['S'], [⟨[], []⟩])], some 0, true⟩ ∧
    removeValue [] ⟨[(['S'], [⟨['a'], ['1']⟩])], some 0, false⟩ ['k'] = none := by
  constructor <;> rfl

/-- C9: during parsing, a key/value line that appears before any section
header (`sections` still empty) is silently dropped: the document model is
unchanged by it and it does not survive a serialize. -/
theorem claim9_kv_before_section_dropped (c : Char) (t : Str) (rest : List Str)
    (h1 : (c == ';') = false) (h2 : (c == '#') = false) (h3 : (c == '[') = false) :
    parseDoc ((c :: t) :: rest) = parseDoc rest ∧
    writeLines (parseDoc ((c :: t) :: rest)) = writeLines (parseDoc rest) := by
  have hstep : parseLine [] (c :: t) = [] := by
    simp [parseLine, h1, h2, h3]
  constructor
  · show List.foldl parseLine (parseLine [] (c :: t)) rest = parseDoc rest
    rw [hstep]; rfl
  · show writeLines (List.foldl parseLine (parseLine [] (c :: t)) rest) = _
    rw [hstep]; rfl

/-- Witness for C9 at the concrete line `a = b` placed before `[S]`. -/
theorem claim9_witness :
    parseDoc (['a', ' ', '=', ' ', 'b'] :: [['[', 'S', ']']])
      = parseDoc [['[', 'S', ']']] :=
  (claim9_kv_before_section_dropped 'a' [' ', '=', ' ', 'b'] [['[', 'S', ']']]
    (by decide) (by decide) (by decide)).1

/-- C2: the dirty flag is set exactly by adding or removing a key or section
(including the typed reader's placeholder insertion via `readKey`) and never
by loading, selecting a section, or reading an existing value; `close`
serializes to the original path iff the flag is set and always clears the
sections and the flag afterwards. -/
theorem claim2_dirty_flag :
    (∀ h name, (setSection h name).2.changed = h.changed ∧
      (setSection h name).2.sections = h.sections) ∧
    (∀ h lines, (tryOpen h lines).changed = h.changed) ∧
    (∀ h key v, getValue h key = some v →
      readKey h key = (if v.isEmpty then none else some v, h)) ∧
    (∀ h name, (addSection h name).changed = true) ∧
    (∀ h key value, (addValue h key value).changed = true) ∧
    (∀ junk h key h', removeValue junk h key = some h' → h'.changed = true) ∧
    (∀ h key, getValue h key = none →
      readKey h key = (none, addValue h key []) ∧ (readKey h key).2.changed = true) ∧
    (∀ h, ((close h).1 = some (writeLines h.sections) ↔ h.changed = true) ∧
      ((close h).1 = none ↔ h.changed = false) ∧
      (close h).2.sections = [] ∧ (close h).2.changed = false) := by
  refine ⟨?_, ?_, ?_, ?_, ?_, ?_, ?_, ?_⟩
  · intro h name
    unfold setSection
    cases h.sections.findIdx? (fun p => p.1 == name) <;> simp
  · intro h lines; rfl
  · intro h key v hv
    simp only [readKey, hv]
    split <;> simp_all
  · intro h name; rfl
  · intro h key value
    unfold addValue
    cases h.cur <;> simp
  · intro junk h key h' hr
    unfold removeValue at hr
    split at hr
    · exact absurd hr (by simp)
    · split at hr
      · exact absurd hr (by simp)
      · split at hr
        · exact absurd hr (by simp)
        · cases hr; rfl
  · intro h key hv
    refine ⟨by simp [readKey, hv], ?_⟩
    simp only [readKey, hv]
    unfold addValue
    cases h.cur <;> simp
  · intro h
    cases hc : h.changed <;> simp [close, hc]

/-- Witness for C2: the hypothesis-bearing conjuncts applied at concrete
states — reading an existing value leaves the handler untouched, removing a
matching key sets the flag, and a placeholder insertion sets the flag. -/
theorem claim2_witness :
    readKey ⟨[(['S'], [⟨['k'], ['v']⟩])], some 0, false⟩ ['k']
        = (some ['v'], ⟨[(['S'], [⟨['k'], ['v']⟩])], some 0, false⟩) ∧
    (∀ h', removeValue [] ⟨[(['S'], [⟨['k'], ['v']⟩])], some 0, false⟩ ['k'] = some h' →
      h'.changed = true) ∧
    (readKey ⟨[(['S'], [])], some 0, false⟩ ['x']).2.changed = true := by
  refine ⟨?_, ?_, ?_⟩
  · exact claim2_dirty_flag.2.2.1 _ ['k'] ['v'] (by rfl)
  · intro h' hr
    exact claim2_dirty_flag.2.2.2.2.2.1 [] _ ['k'] h' hr
  · exact (claim2_dirty_flag.2.2.2.2.2.2.1 _ ['x'] (by rfl)).2

/-- After the placeholder insertion for a key that was absent from the
selected section, the key is present with the empty value. -/
theorem getValue_addValue_self (h : IniHandler) (i : Nat) (key : Str)
    (hcur : h.cur = some i) (hlt : i < h.sections.length)
    (habs : getValue h key = none) :
    getValue (addValue h key []) key = some [] := by
  have hsec : h.sections.get? i = some h.sections[i] := by
    simp [List.get?_eq_getElem?, List.getElem?_eq_getElem hlt]
  have hfind : h.sections[i].2.find? (fun e => e.key == key) = none := by
    simp only [getValue, hcur, hsec] at habs
    cases hf : h.sections[i].2.find? (fun e => e.key == key) with
    | none => rfl
    | some e => rw [hf] at habs; exact absurd habs (by simp)
  simp only [addValue, hcur, getValue]
  have : (h.sections.modify (fun s => (s.1, s.2 ++ [⟨key, []⟩])) i).get? i
      = some (h.sections[i].1, h.sections[i].2 ++ [⟨key, []⟩]) := by
    simp [List.get?_eq_getElem?, List.getElem?_modify_eq, List.getElem?_eq_getElem hlt]
  rw [this]
  simp [List.find?_append, hfind]

/-- C3: a typed read of a key absent from the selected section adds the key
with an empty value, marks the document dirty, and leaves the typed target at
its pre-existing value — for every typed coercion helper. -/
theorem claim3_missing_key {α : Type} (parseD : Str → Option α)
    (h : IniHandler) (i : Nat) (key : Str)
    (hcur : h.cur = some i) (hlt : i < h.sections.length)
    (habs : getValue h key = none)
    (x : α) (n : Int) (b : Bool) (ch c : Nat) (f : Int) :
    readInt h key n = (n, addValue h key [], []) ∧
    readBool h key b = (b, addValue h key [], []) ∧
    readDouble parseD h key x = (x, addValue h key [], []) ∧
    readChar h key ch = some (ch, addValue h key [], []) ∧
    readTime h key = (.noValue, addValue h key [], []) ∧
    applyTime (readTime h key).1 f = f ∧
    readColor h key c = (c, addValue h key [], []) ∧
    (addValue h key []).changed = true ∧
    getValue (addValue h key []) key = some [] := by
  have hrk : readKey h key = (none, addValue h key []) := by simp [readKey, habs]
  have hrs : readString h key = ([], addValue h key []) := by simp [readString, habs]
  refine ⟨?_, ?_, ?_, ?_, ?_, ?_, ?_, ?_, ?_⟩
  · simp [readInt, readTyped, hrk]
  · simp [readBool, readTyped, hrk]
  · simp [readDouble, readTyped, hrk]
  · simp [readChar, hrs]
  · simp [readTime, hrs]
  · simp [readTime, hrs, applyTime]
  · simp [readColor, hrs]
  · unfold addValue
    cases h.cur <;> simp
  · exact getValue_addValue_self h i key hcur hlt habs

/-- Witness for C3: reading the absent key `x` from an empty section `S`. -/
theorem claim3_witness :
    readInt ⟨[(['S'], [])], some 0, false⟩ ['x'] 7
        = (7, addValue ⟨[(['S'], [])], some 0, false⟩ ['x'] [], []) ∧
    getValue (addValue ⟨[(['S'], [])], some 0, false⟩ ['x'] []) ['x'] = some [] := by
  have t := claim3_missing_key (fun _ => (none : Option Int))
    ⟨[(['S'], [])], some 0, false⟩ 0 ['x'] rfl (by decide) (by rfl)
    0 7 false 0 0 0
  exact ⟨t.1, t.2.2.2.2.2.2.2.2⟩

/-- C6: a key present in the selected section with an empty value is treated
as "no value": every typed coercion helper returns with the target field and
the handler state (in particular the dirty flag) untouched. -/
theorem claim6_empty_value_noop {α : Type} (parseD : Str → Option α)
    (h : IniHandler) (key : Str) (hemp : getValue h key = some [])
    (x : α) (n : Int) (b : Bool) (ch c : Nat) (f : Int) :
    readInt h key n = (n, h, []) ∧
    readBool h key b = (b, h, []) ∧
    readDouble parseD h key x = (x, h, []) ∧
    readChar h key ch = some (ch, h, []) ∧
    readTime h key = (.noValue, h, []) ∧
    applyTime (readTime h key).1 f = f ∧
    readColor h key c = (c, h, []) := by
  have hrk : readKey h key = (none, h) := by simp [readKey, hemp]
  have hrs : readString h key = ([], h) := by simp [readString, hemp]
  refine ⟨?_, ?_, ?_, ?_, ?_, ?_, ?_⟩
  · simp [readInt, readTyped, hrk]
  · simp [readBool, readTyped, hrk]
  · simp [readDouble, readTyped, hrk]
  · simp [readChar, hrs]
  · simp [readTime, hrs]
  · simp [readTime, hrs, applyTime]
  · simp [readColor, hrs]

/-- Witness for C6: key `k` present with an empty value. -/
theorem claim6_witness :
    readInt ⟨[(['S'], [⟨['k'], []⟩])], some 0, true⟩ ['k'] 42
        = (42, ⟨[(['S'], [⟨['k'], []⟩])], some 0, true⟩, []) ∧
    readColor ⟨[(['S'], [⟨['k'], []⟩])], some 0, true⟩ ['k'] 5
        = (5, ⟨[(['S'], [⟨['k'], []⟩])], some 0, true⟩, []) := by
  have t := claim6_empty_value_noop (fun _ => (none : Option Int))
    ⟨[(['S'], [⟨['k'], []⟩])], some 0, true⟩ ['k'] (by rfl) 0 42 false 0 5 0
  exact ⟨t.1, t.2.2.2.2.2.2⟩

/-- C7: the color coercion compares the present value case-sensitively
against the 16 fixed names of `colorStrings` in index order; an exact match
at index `i` sets the field to `i`, and any non-matching value leaves the
field and the handler untouched and reports nothing (empty error output in
both cases). -/
theorem claim7_readColor (h : IniHandler) (key : Str) (field : Nat) :
    (∀ i name, i < 16 → colorStrings.get? i = some name →
      getValue h key = some name → readColor h key field = (i, h, [])) ∧
    (∀ v, getValue h key = some v → v ∉ colorStrings →
      readColor h key field = (field, h, [])) := by
  constructor
  · intro i name hi hname hv
    have hrs : readString h key = (name, h) := by simp [readString, hv]
    interval_cases i <;>
      simp only [colorStrings, List.map_cons, List.map_nil, List.get?] at hname <;>
      cases hname <;>
      simp [readColor, hrs, colorStrings]
  · intro v hv hmem
    have hrs : readString h key = (v, h) := by simp [readString, hv]
    have hfind : colorStrings.findIdx? (fun c => c == v) = none := by
      rw [List.findIdx?_eq_none_iff]
      intro x hx
      simp only [beq_eq_false_iff_ne, ne_eq]
      intro hxv
      exact hmem (hxv ▸ hx)
    by_cases hemp : v = []
    · subst hemp; simp [readColor, hrs]
    · simp [readColor, hrs, hemp, hfind]

/-- Witness for C7: `bright red` selects index 9; the wrong-case
`BRIGHT RED` leaves the field untouched. -/
theorem claim7_witness :
    readColor ⟨[(['S'], [⟨['k'], "bright red".toList⟩])], some 0, false⟩ ['k'] 3
        = (9, ⟨[(['S'], [⟨['k'], "bright red".toList⟩])], some 0, false⟩, []) ∧
    readColor ⟨[(['S'], [⟨['k'], "BRIGHT RED".toList⟩])], some 0, false⟩ ['k'] 3
        = (3, ⟨[(['S'], [⟨['k'], "BRIGHT RED".toList⟩])], some 0, false⟩, []) := by
  constructor
  · exact (claim7_readColor _ ['k'] 3).1 9 ("bright red".toList) (by decide)
      (by decide) (by rfl)
  · exact (claim7_readColor _ ['k'] 3).2 ("BRIGHT RED".toList) (by rfl) (by decide)

/-- C10: when the `ASCII` key is absent, empty, or unparsable as a boolean,
`readBool` returns its output parameter unchanged, so `readConsole` branches
on the indeterminate initial content `b` of the uninitialized local `ascii`:
the glyph fields come out overwritten or untouched according to `b` alone,
not according to the document. -/
theorem claim10_ascii_uninitialized (h : IniHandler) (c : ConsoleS) (b : Bool)
    (hcond : getValue (consoleSel h) ("ASCII".toList) = none ∨
      getValue (consoleSel h) ("ASCII".toList) = some [] ∨
      ∃ v, getValue (consoleSel h) ("ASCII".toList) = some v ∧ parseBool v = none) :
    (readBool (consoleSel h) ("ASCII".toList) b).1 = b ∧
    glyphsOf (readConsole b h c).1
      = (if b then glyphsOf (asciiOverwrite c) else glyphsOf c) := by
  have hA : ("ASCII".toList : Str) = ['A', 'S', 'C', 'I', 'I'] := rfl
  have hone : (readBool (consoleSel h) ("ASCII".toList) b).1 = b := by
    rcases hcond with hv | hv | ⟨v, hv, hp⟩ <;> rw [hA] at hv ⊢
    · simp [readBool, readTyped, readKey, hv]
    · simp [readBool, readTyped, readKey, hv]
    · by_cases hemp : v = []
      · subst hemp; simp [readBool, readTyped, readKey, hv]
      · simp [readBool, readTyped, readKey, hv, hemp, hp]
  refine ⟨hone, ?_⟩
  simp only [readConsole, hone]
  cases b <;> simp [glyphsOf, asciiOverwrite]

/-- Witness for C10: on a document with no `Console` section at all, the glyph
outcome tracks the indeterminate initial value (`true` here). -/
theorem claim10_witness :
    glyphsOf (readConsole true ⟨[], none, false⟩ consoleDefaults).1
      = glyphsOf (asciiOverwrite consoleDefaults) := by
  have t := claim10_ascii_uninitialized ⟨[], none, false⟩ consoleDefaults true
    (Or.inl (by rfl))
  simpa using t.2

/-- The claim's acceptance condition for quoted character values, following
the spec's words: a quoted literal of the exact form `'<char>'`, exactly one
character between the single quotes and nothing else. -/
def specQuotedExact (cs : Str) : Bool :=
  cs.length == 3 && cs.getD 0 ' ' == '\'' && cs.getD 2 ' ' == '\''

/-- C8 counterexample: the value `'A'x` is a quoted form that is not of the
exact form `'<char>'` (the claim says any such value silently leaves the
field unchanged), yet the code never looks past index 2, accepts it, and sets
the field to 65. -/
theorem claim8_counterexample :
    specQuotedExact ("'A'x".toList) = false ∧
    readChar ⟨[(['S'], [⟨['k'], "'A'x".toList⟩])], some 0, false⟩ ['k'] 0
      = some (65, ⟨[(['S'], [⟨['k'], "'A'x".toList⟩])], some 0, false⟩, []) := by
  constructor <;> rfl

/-- C8 (amended): on a non-empty ASCII value, a value starting with a single
quote is accepted iff the character at index 2 (the NUL terminator when the
value has exactly 2 characters) is again a single quote — taking the
character at index 1 and ignoring everything after the closing quote; a
lone-quote value of length 1 indexes past the end of the string (undefined
behaviour); any other value is parsed as a bare integer whose low byte is the
character code, with a reported parse failure leaving `c = 0`; resulting
codes below 32 are rejected with the field unchanged. -/
theorem claim8_readChar (h : IniHandler) (key : Str) (ch : Nat) (v : Str)
    (hv : getValue h key = some v)
    (hascii : v.all (fun c => c.toNat < 128) = true) :
    (∀ c rest, v = '\'' :: c :: '\'' :: rest → 32 ≤ c.toNat →
      readChar h key ch = some (c.toNat, h, [])) ∧
    (∀ c rest, v = '\'' :: c :: '\'' :: rest → c.toNat < 32 →
      readChar h key ch = some (ch, h, [])) ∧
    (∀ t, v = '\'' :: t → t ≠ [] → v.getD 2 '\x00' ≠ '\'' →
      readChar h key ch = some (ch, h, [])) ∧
    (v = ['\''] → readChar h key ch = none) ∧
    (∀ c0 t, v = c0 :: t → c0 ≠ '\'' →
      readChar h key ch
        = match parseInt v with
          | some n =>
            if 32 ≤ (n % 256).toNat then some ((n % 256).toNat, h, [])
            else some (ch, h, [])
          | none => some (ch, h, [errIntMsg ++ key])) := by
  have hrs : readString h key = (v, h) := by simp [readString, hv]
  refine ⟨?_, ?_, ?_, ?_, ?_⟩
  · intro c rest hform hge
    have hc : c.toNat < 128 := by
      subst hform; simp [List.all_cons] at hascii; omega
    subst hform
    simp [readChar, hrs, List.getD, Nat.mod_eq_of_lt (by omega : c.toNat < 256), hge]
  · intro c rest hform hlt
    have hc : c.toNat < 128 := by
      subst hform; simp [List.all_cons] at hascii; omega
    subst hform
    simp [readChar, hrs, List.getD, Nat.mod_eq_of_lt (by omega : c.toNat < 256)]
    omega
  · intro t hform hne hno
    subst hform
    have hno' : t[1]?.getD '\x00' ≠ '\'' := by simpa [List.getD] using hno
    simp [readChar, hrs, hne, List.getD, hno']
  · intro hform
    subst hform
    simp [readChar, hrs]
  · intro c0 t hform hq
    subst hform
    simp only [readChar, hrs]
    have : (c0 == '\'') = false := by simp [hq]
    rw [this]
    simp only [Bool.false_eq_true, if_false]
    cases hp : parseInt (c0 :: t) with
    | some n => simp [hp]; split <;> simp_all
    | none => simp [hp]

/-- Witness for C8: `'A'` and `65` both give code 65, `' '` (code 32) is
accepted, and a quoted control character below code 32 (here TAB) is
rejected with the field unchanged. -/
theorem claim8_witness :
    readChar ⟨[(['S'], [⟨['k'], "'A'".toList⟩])], some 0, false⟩ ['k'] 0
      = some (65, ⟨[(['S'], [⟨['k'], "'A'".toList⟩])], some 0, false⟩, []) ∧
    readChar ⟨[(['S'], [⟨['k'], "' '".toList⟩])], some 0, false⟩ ['k'] 0
      = some (32, ⟨[(['S'], [⟨['k'], "' '".toList⟩])], some 0, false⟩, []) ∧
    readChar ⟨[(['S'], [⟨['k'], ['\'', '\x09', '\'']⟩])], some 0, false⟩ ['k'] 77
      = some (77, ⟨[(['S'], [⟨['k'], ['\'', '\x09', '\'']⟩])], some 0, false⟩, []) ∧
    readChar ⟨[(['S'], [⟨['k'], "65".toList⟩])], some 0, false⟩ ['k'] 1
      = some (65, ⟨[(['S'], [⟨['k'], "65".toList⟩])], some 0, false⟩, []) := by
  refine ⟨?_, ?_, ?_, ?_⟩
  · exact (claim8_readChar ⟨[(['S'], [⟨['k'], "'A'".toList⟩])], some 0, false⟩ ['k'] 0
      ("'A'".toList) (by rfl) (by decide)).1 'A' [] (by rfl) (by decide)
  · exact (claim8_readChar ⟨[(['S'], [⟨['k'], "' '".toList⟩])], some 0, false⟩ ['k'] 0
      ("' '".toList) (by rfl) (by decide)).1 ' ' [] (by rfl) (by decide)
  · exact (claim8_readChar ⟨[(['S'], [⟨['k'], ['\'', '\x09', '\'']⟩])], some 0, false⟩ ['k'] 77
      ['\'', '\x09', '\''] (by rfl) (by decide)).2.1 '\x09' [] (by rfl) (by decide)
  · have t := (claim8_readChar ⟨[(['S'], [⟨['k'], "65".toList⟩])], some 0, false⟩ ['k'] 1
      ("65".toList) (by rfl) (by decide)).2.2.2.2 '6' ['5'] (by rfl) (by decide)
    rw [t]
    rfl

/-! ## Arithmetic of the time coercion (C4) -/

theorem digit_not_space {c : Char} (h : isDigitChar c = true) : isSpaceChar c = false := by
  simp only [isDigitChar, Bool.and_eq_true, decide_eq_true_eq] at h
  simp only [isSpaceChar, Bool.or_eq_false_iff, beq_eq_false_iff_ne, ne_eq]
  refine ⟨⟨⟨⟨⟨?_, ?_⟩, ?_⟩, ?_⟩, ?_⟩, ?_⟩ <;> rintro rfl <;> revert h <;> decide

theorem digit_ne_of_not_digit {c x : Char} (h : isDigitChar c = true)
    (hx : isDigitChar x = false) : (c == x) = false := by
  simp only [beq_eq_false_iff_ne, ne_eq]
  rintro rfl
  rw [h] at hx
  exact Bool.noConfusion hx

theorem takeWhile_digits (ds rest : Str)
    (hd : ∀ c ∈ ds, isDigitChar c = true)
    (hr : ∀ c, rest.head? = some c → isDigitChar c = false) :
    (ds ++ rest).takeWhile isDigitChar = ds := by
  induction ds with
  | nil =>
    cases rest with
    | nil => rfl
    | cons r t =>
      simp only [List.nil_append, List.takeWhile_cons, hr r rfl,
        Bool.false_eq_true, if_false]
  | cons d ds ih =>
    have hd0 : isDigitChar d = true := hd d (List.mem_cons_self d ds)
    simp only [List.cons_append, List.takeWhile_cons, hd0, if_true]
    rw [ih (fun c hc => hd c (List.mem_cons_of_mem d hc))]

theorem parseInt_digits (ds rest : Str) (hne : ds ≠ [])
    (hd : ∀ c ∈ ds, isDigitChar c = true)
    (hr : ∀ c, rest.head? = some c → isDigitChar c = false)
    (hb : (natOfDigits ds : Int) ≤ int32Max) :
    parseInt (ds ++ rest) = some ((natOfDigits ds : Int)) := by
  obtain ⟨d, ds', rfl⟩ := List.exists_cons_of_ne_nil hne
  have hd0 : isDigitChar d = true := hd d (List.mem_cons_self d ds')
  have hdrop : ((d :: ds') ++ rest).dropWhile isSpaceChar = (d :: ds') ++ rest := by
    simp only [List.cons_append, List.dropWhile_cons, digit_not_space hd0,
      Bool.false_eq_true, if_false]
  have hminus : (d == '-') = false :=
    digit_ne_of_not_digit hd0 (by decide)
  have hplus : (d == '+') = false :=
    digit_ne_of_not_digit hd0 (by decide)
  have htake : ((d :: ds') ++ rest).takeWhile isDigitChar = d :: ds' :=
    takeWhile_digits _ rest hd hr
  unfold parseInt
  rw [hdrop]
  simp only [List.cons_append, hminus, hplus, Bool.false_eq_true, if_false]
  unfold parseDigits
  rw [show (d :: (ds' ++ rest)).takeWhile isDigitChar = d :: ds' from htake]
  simp only [List.isEmpty_cons, Bool.false_eq_true, if_false]
  have hge : (0 : Int) ≤ (natOfDigits (d :: ds') : Int) := Int.ofNat_nonneg _
  rw [if_neg]
  rw [not_or]
  constructor
  · rw [not_lt]; unfold int32Min; omega
  · rw [not_lt]; omega

theorem parseInt_of_digits (ds : Str) (hne : ds ≠ [])
    (hd : ∀ c ∈ ds, isDigitChar c = true)
    (hb : (natOfDigits ds : Int) ≤ int32Max) :
    parseInt ds = some ((natOfDigits ds : Int)) := by
  have := parseInt_digits ds [] hne hd (fun c hc => by cases hc) hb
  rwa [List.append_nil] at this

theorem findIdx?_append_of_none (p : Char → Bool) (l1 l2 : Str)
    (h : ∀ c ∈ l1, p c = false) :
    (l1 ++ l2).findIdx? p = (l2.findIdx? p).map (fun i => i + l1.length) := by
  rw [List.findIdx?_append, List.findIdx?_eq_none_iff.mpr h]
  rfl

theorem natOfDigits_foldl_lt (ds : Str) (hd : ∀ c ∈ ds, isDigitChar c = true) :
    ∀ a : Nat, List.foldl (fun a c => a * 10 + (c.toNat - 48)) a ds < (a + 1) * 10 ^ ds.length := by
  induction ds with
  | nil =>
    intro a
    simp only [List.foldl_nil, List.length_nil, pow_zero, mul_one]
    omega
  | cons c t ih =>
    intro a
    have hc : c.toNat - 48 ≤ 9 := by
      have := hd c (List.mem_cons_self c t)
      simp only [isDigitChar, Bool.and_eq_true, decide_eq_true_eq] at this
      omega
    have step := ih (fun x hx => hd x (List.mem_cons_of_mem c hx)) (a * 10 + (c.toNat - 48))
    calc List.foldl (fun a c => a * 10 + (c.toNat - 48)) (a * 10 + (c.toNat - 48)) t
        < (a * 10 + (c.toNat - 48) + 1) * 10 ^ t.length := step
      _ ≤ (a + 1) * 10 ^ (c :: t).length := by
          simp only [List.length_cons, pow_succ]
          have : a * 10 + (c.toNat - 48) + 1 ≤ (a + 1) * 10 := by omega
          calc (a * 10 + (c.toNat - 48) + 1) * 10 ^ t.length
              ≤ (a + 1) * 10 * 10 ^ t.length := Nat.mul_le_mul_right _ this
            _ = (a + 1) * (10 ^ t.length * 10) := by ring

theorem natOfDigits_lt_pow (ds : Str) (hd : ∀ c ∈ ds, isDigitChar c = true) :
    natOfDigits ds < 10 ^ ds.length := by
  have := natOfDigits_foldl_lt ds hd 0
  simpa [natOfDigits] using this

theorem msecScale_some {n : Nat} {k : Int} (h : msecScale n = some k) :
    (n = 1 ∧ k = 100) ∨ (n = 2 ∧ k = 10) ∨ (n = 3 ∧ k = 1) := by
  unfold msecScale at h
  split at h
  · exact Or.inl ⟨by assumption, by injection h with h2; omega⟩
  · split at h
    · exact Or.inr (Or.inl ⟨by assumption, by injection h with h2; omega⟩)
    · split at h
      · exact Or.inr (Or.inr ⟨by assumption, by injection h with h2; omega⟩)
      · exact absurd h (by simp)

/-- The minutes/seconds position computations shared by all `MM:SS` paths. -/
theorem readTime_sep_idx (mcs rest : Str)
    (hdm : ∀ c ∈ mcs, isDigitChar c = true) :
    (mcs ++ ':' :: rest).findIdx? (fun c => c == ':') = some mcs.length := by
  rw [findIdx?_append_of_none _ _ _
    (fun c hc => digit_ne_of_not_digit (hdm c hc) (by decide))]
  simp

theorem readTimeValue_mmss (mcs scs : Str) (hm : mcs ≠ []) (hs : scs ≠ [])
    (hdm : ∀ c ∈ mcs, isDigitChar c = true) (hds : ∀ c ∈ scs, isDigitChar c = true)
    (hm99 : natOfDigits mcs ≤ 99) (hs59 : natOfDigits scs ≤ 59) :
    readTimeValue (mcs ++ ':' :: scs)
      = .ok ((natOfDigits mcs : Int) * 60000 + (natOfDigits scs : Int) * 1000) := by
  have hpm : parseInt mcs = some ((natOfDigits mcs : Int)) :=
    parseInt_of_digits mcs hm hdm (by unfold int32Max; omega)
  have hps : parseInt scs = some ((natOfDigits scs : Int)) :=
    parseInt_of_digits scs hs hds (by unfold int32Max; omega)
  have hdot : (mcs ++ ':' :: scs).findIdx? (fun c => c == '.') = none := by
    rw [List.findIdx?_eq_none_iff]
    intro x hx
    rcases List.mem_append.mp hx with h1 | h2
    · exact digit_ne_of_not_digit (hdm x h1) (by decide)
    · rcases List.mem_cons.mp h2 with rfl | h3
      · decide
      · exact digit_ne_of_not_digit (hds x h3) (by decide)
  unfold readTimeValue
  rw [readTime_sep_idx mcs scs hdm]
  simp only
  rw [List.take_left, hpm]
  simp only
  rw [if_neg (by omega)]
  rw [hdot]
  simp only
  rw [show (mcs ++ ':' :: scs).drop (mcs.length + 1) = scs from List.drop_append 1, hps]
  simp only
  rw [if_neg (by omega)]
  unfold finishTime
  rw [if_neg (by unfold int32Min int32Max; omega),
    if_neg (by unfold int32Min int32Max; omega)]
  congr 1
  ring

theorem readTimeValue_mmss_frac (mcs scs fcs : Str) (k : Int)
    (hm : mcs ≠ []) (hs : scs ≠ []) (hf : fcs ≠ [])
    (hdm : ∀ c ∈ mcs, isDigitChar c = true) (hds : ∀ c ∈ scs, isDigitChar c = true)
    (hdf : ∀ c ∈ fcs, isDigitChar c = true)
    (hm99 : natOfDigits mcs ≤ 99) (hs59 : natOfDigits scs ≤ 59)
    (hk : msecScale fcs.length = some k) :
    readTimeValue (mcs ++ ':' :: (scs ++ '.' :: fcs))
      = .ok ((natOfDigits mcs : Int) * 60000 + (natOfDigits scs : Int) * 1000
          + (natOfDigits fcs : Int) * k) := by
  have hshape : mcs ++ ':' :: (scs ++ '.' :: fcs) = (mcs ++ ':' :: scs) ++ '.' :: fcs := by
    simp
  have hpm : parseInt mcs = some ((natOfDigits mcs : Int)) :=
    parseInt_of_digits mcs hm hdm (by unfold int32Max; omega)
  have hps : parseInt (scs ++ ['.']) = some ((natOfDigits scs : Int)) :=
    parseInt_digits scs ['.'] hs hds
      (fun c hc => by injection hc with h2; subst h2; decide)
      (by unfold int32Max; omega)
  have hflt : natOfDigits fcs < 1000 := by
    have h1 := natOfDigits_lt_pow fcs hdf
    have hlen3 : fcs.length ≤ 3 := by
      rcases msecScale_some hk with ⟨h2, _⟩ | ⟨h2, _⟩ | ⟨h2, _⟩ <;> omega
    calc natOfDigits fcs < 10 ^ fcs.length := h1
      _ ≤ 10 ^ 3 := Nat.pow_le_pow_right (by omega) hlen3
      _ = 1000 := by norm_num
  have hpf : parseInt fcs = some ((natOfDigits fcs : Int)) :=
    parseInt_of_digits fcs hf hdf (by unfold int32Max; omega)
  have hkpos : 0 < k := by
    rcases msecScale_some hk with ⟨_, rfl⟩ | ⟨_, rfl⟩ | ⟨_, rfl⟩ <;> omega
  have hfk0 : 0 ≤ (natOfDigits fcs : Int) * k :=
    mul_nonneg (Int.ofNat_nonneg _) (le_of_lt hkpos)
  have hfk : (natOfDigits fcs : Int) * k ≤ 100000 := by
    rcases msecScale_some hk with ⟨h2, rfl⟩ | ⟨h2, rfl⟩ | ⟨h2, rfl⟩ <;>
    · have h3 := natOfDigits_lt_pow fcs hdf
      rw [h2] at h3
      norm_num at h3
      omega
  have hnodot : ∀ c ∈ mcs ++ ':' :: scs, (c == '.') = false := by
    intro x hx
    rcases List.mem_append.mp hx with h1 | h2
    · exact digit_ne_of_not_digit (hdm x h1) (by decide)
    · rcases List.mem_cons.mp h2 with rfl | h3
      · decide
      · exact digit_ne_of_not_digit (hds x h3) (by decide)
  have hdot : (mcs ++ ':' :: (scs ++ '.' :: fcs)).findIdx? (fun c => c == '.')
      = some (mcs.length + scs.length + 1) := by
    rw [hshape, findIdx?_append_of_none _ _ _ hnodot]
    simp only [List.findIdx?_cons, beq_self_eq_true, if_true, Option.map_some',
      List.length_append, List.length_cons]
    congr 1
    omega
  unfold readTimeValue
  rw [readTime_sep_idx mcs (scs ++ '.' :: fcs) hdm]
  simp only
  rw [List.take_left, hpm]
  simp only
  rw [if_neg (by omega)]
  rw [hdot]
  simp only
  rw [if_pos (by omega)]
  rw [show (mcs ++ ':' :: (scs ++ '.' :: fcs)).drop (mcs.length + 1) = scs ++ '.' :: fcs
    from List.drop_append 1]
  rw [show mcs.length + scs.length + 1 - mcs.length = scs.length + 1 from by omega]
  rw [show (scs ++ '.' :: fcs).take (scs.length + 1) = scs ++ ['.'] from by
    rw [List.take_append 1]; rfl]
  rw [hps]
  simp only
  rw [show (mcs ++ ':' :: (scs ++ '.' :: fcs)).drop (mcs.length + scs.length + 1 + 1) = fcs
    from by
      rw [hshape]
      rw [show mcs.length + scs.length + 1 + 1 = (mcs ++ ':' :: scs).length + 1 from by
        simp only [List.length_append, List.length_cons]; omega]
      rw [List.drop_append 1]
      rfl]
  rw [hpf]
  simp only
  rw [hk]
  simp only
  rw [if_neg (by omega)]
  unfold finishTime
  rw [if_neg (by unfold int32Min int32Max; omega)]
  rw [if_neg (by
    unfold int32Min int32Max
    generalize hF : (natOfDigits fcs : Int) * k = F at hfk0 hfk ⊢
    omega)]
  rw [show ((natOfDigits mcs : Int) * 60 + (natOfDigits scs : Int)) * 1000
      + (natOfDigits fcs : Int) * k
      = (natOfDigits mcs : Int) * 60000 + (natOfDigits scs : Int) * 1000
      + (natOfDigits fcs : Int) * k from by ring]

theorem readTimeValue_bare (dcs : Str) (hne : dcs ≠ [])
    (hd : ∀ c ∈ dcs, isDigitChar c = true) (hb : natOfDigits dcs ≤ 2147483) :
    readTimeValue dcs = .ok ((natOfDigits dcs : Int) * 1000) := by
  have hsep : dcs.findIdx? (fun c => c == ':') = none := by
    rw [List.findIdx?_eq_none_iff]
    intro x hx
    exact digit_ne_of_not_digit (hd x hx) (by decide)
  have hp : parseInt dcs = some ((natOfDigits dcs : Int)) :=
    parseInt_of_digits dcs hne hd (by unfold int32Max; omega)
  unfold readTimeValue
  rw [hsep]
  simp only
  rw [hp]
  simp only
  unfold finishTime
  rw [if_neg (by unfold int32Min int32Max; omega),
    if_neg (by unfold int32Min int32Max; omega)]
  rw [show (natOfDigits dcs : Int) * 1000 + 0 = (natOfDigits dcs : Int) * 1000 from by ring]

theorem readTimeValue_min_out (mcs rest : Str) (hm : mcs ≠ [])
    (hdm : ∀ c ∈ mcs, isDigitChar c = true)
    (h100 : 100 ≤ natOfDigits mcs) (hbd : (natOfDigits mcs : Int) ≤ int32Max) :
    readTimeValue (mcs ++ ':' :: rest) = .invalid := by
  unfold readTimeValue
  rw [readTime_sep_idx mcs rest hdm]
  simp only
  rw [List.take_left, parseInt_of_digits mcs hm hdm hbd]
  simp only
  rw [if_pos (by omega)]

theorem readTimeValue_sec_out (mcs scs : Str) (hm : mcs ≠ []) (hs : scs ≠ [])
    (hdm : ∀ c ∈ mcs, isDigitChar c = true) (hds : ∀ c ∈ scs, isDigitChar c = true)
    (hm99 : natOfDigits mcs ≤ 99) (h60 : 60 ≤ natOfDigits scs)
    (hbs : (natOfDigits scs : Int) ≤ int32Max) :
    readTimeValue (mcs ++ ':' :: scs) = .invalid := by
  have hpm : parseInt mcs = some ((natOfDigits mcs : Int)) :=
    parseInt_of_digits mcs hm hdm (by unfold int32Max; omega)
  have hps : parseInt scs = some ((natOfDigits scs : Int)) :=
    parseInt_of_digits scs hs hds hbs
  have hdot : (mcs ++ ':' :: scs).findIdx? (fun c => c == '.') = none := by
    rw [List.findIdx?_eq_none_iff]
    intro x hx
    rcases List.mem_append.mp hx with h1 | h2
    · exact digit_ne_of_not_digit (hdm x h1) (by decide)
    · rcases List.mem_cons.mp h2 with rfl | h3
      · decide
      · exact digit_ne_of_not_digit (hds x h3) (by decide)
  unfold readTimeValue
  rw [readTime_sep_idx mcs scs hdm]
  simp only
  rw [List.take_left, hpm]
  simp only
  rw [if_neg (by omega)]
  rw [hdot]
  simp only
  rw [show (mcs ++ ':' :: scs).drop (mcs.length + 1) = scs from List.drop_append 1, hps]
  simp only
  rw [if_pos (by omega)]

theorem readTimeValue_frac_long (mcs scs fcs : Str)
    (hm : mcs ≠ []) (hs : scs ≠ []) (hf : fcs ≠ [])
    (hdm : ∀ c ∈ mcs, isDigitChar c = true) (hds : ∀ c ∈ scs, isDigitChar c = true)
    (hdf : ∀ c ∈ fcs, isDigitChar c = true)
    (hm99 : natOfDigits mcs ≤ 99) (hs59 : natOfDigits scs ≤ 59)
    (hlen : 4 ≤ fcs.length) (hfb : (natOfDigits fcs : Int) ≤ int32Max) :
    readTimeValue (mcs ++ ':' :: (scs ++ '.' :: fcs)) = .invalid := by
  have hshape : mcs ++ ':' :: (scs ++ '.' :: fcs) = (mcs ++ ':' :: scs) ++ '.' :: fcs := by
    simp
  have hpm : parseInt mcs = some ((natOfDigits mcs : Int)) :=
    parseInt_of_digits mcs hm hdm (by unfold int32Max; omega)
  have hps : parseInt (scs ++ ['.']) = some ((natOfDigits scs : Int)) :=
    parseInt_digits scs ['.'] hs hds
      (fun c hc => by injection hc with h2; subst h2; decide)
      (by unfold int32Max; omega)
  have hpf : parseInt fcs = some ((natOfDigits fcs : Int)) :=
    parseInt_of_digits fcs hf hdf hfb
  have hscale : msecScale fcs.length = none := by
    unfold msecScale
    rw [if_neg (by omega), if_neg (by omega), if_neg (by omega)]
  have hnodot : ∀ c ∈ mcs ++ ':' :: scs, (c == '.') = false := by
    intro x hx
    rcases List.mem_append.mp hx with h1 | h2
    · exact digit_ne_of_not_digit (hdm x h1) (by decide)
    · rcases List.mem_cons.mp h2 with rfl | h3
      · decide
      · exact digit_ne_of_not_digit (hds x h3) (by decide)
  have hdot : (mcs ++ ':' :: (scs ++ '.' :: fcs)).findIdx? (fun c => c == '.')
      = some (mcs.length + scs.length + 1) := by
    rw [hshape, findIdx?_append_of_none _ _ _ hnodot]
    simp only [List.findIdx?_cons, beq_self_eq_true, if_true, Option.map_some',
      List.length_append, List.length_cons]
    congr 1
    omega
  unfold readTimeValue
  rw [readTime_sep_idx mcs (scs ++ '.' :: fcs) hdm]
  simp only
  rw [List.take_left, hpm]
  simp only
  rw [if_neg (by omega)]
  rw [hdot]
  simp only
  rw [if_pos (by omega)]
  rw [show (mcs ++ ':' :: (scs ++ '.' :: fcs)).drop (mcs.length + 1) = scs ++ '.' :: fcs
    from List.drop_append 1]
  rw [show mcs.length + scs.length + 1 - mcs.length = scs.length + 1 from by omega]
  rw [show (scs ++ '.' :: fcs).take (scs.length + 1) = scs ++ ['.'] from by
    rw [List.take_append 1]; rfl]
  rw [hps]
  simp only
  rw [show (mcs ++ ':' :: (scs ++ '.' :: fcs)).drop (mcs.length + scs.length + 1 + 1) = fcs
    from by
      rw [hshape]
      rw [show mcs.length + scs.length + 1 + 1 = (mcs ++ ':' :: scs).length + 1 from by
        simp only [List.length_append, List.length_cons]; omega]
      rw [List.drop_append 1]
      rfl]
  rw [hpf]
  simp only
  rw [hscale]

theorem readTimeValue_frac_empty (mcs scs : Str) (hm : mcs ≠ []) (hs : scs ≠ [])
    (hdm : ∀ c ∈ mcs, isDigitChar c = true) (hds : ∀ c ∈ scs, isDigitChar c = true)
    (hm99 : natOfDigits mcs ≤ 99) (hs59 : natOfDigits scs ≤ 59) :
    readTimeValue (mcs ++ ':' :: (scs ++ ['.'])) = .parseFail := by
  have hshape : mcs ++ ':' :: (scs ++ ['.']) = (mcs ++ ':' :: scs) ++ ['.'] := by
    simp
  have hpm : parseInt mcs = some ((natOfDigits mcs : Int)) :=
    parseInt_of_digits mcs hm hdm (by unfold int32Max; omega)
  have hps : parseInt (scs ++ ['.']) = some ((natOfDigits scs : Int)) :=
    parseInt_digits scs ['.'] hs hds
      (fun c hc => by injection hc with h2; subst h2; decide)
      (by unfold int32Max; omega)
  have hnodot : ∀ c ∈ mcs ++ ':' :: scs, (c == '.') = false := by
    intro x hx
    rcases List.mem_append.mp hx with h1 | h2
    · exact digit_ne_of_not_digit (hdm x h1) (by decide)
    · rcases List.mem_cons.mp h2 with rfl | h3
      · decide
      · exact digit_ne_of_not_digit (hds x h3) (by decide)
  have hdot : (mcs ++ ':' :: (scs ++ ['.'])).findIdx? (fun c => c == '.')
      = some (mcs.length + scs.length + 1) := by
    rw [hshape, findIdx?_append_of_none _ _ _ hnodot]
    simp only [List.findIdx?_cons, beq_self_eq_true, if_true, Option.map_some',
      List.length_append, List.length_cons]
    congr 1
    omega
  unfold readTimeValue
  rw [readTime_sep_idx mcs (scs ++ ['.']) hdm]
  simp only
  rw [List.take_left, hpm]
  simp only
  rw [if_neg (by omega)]
  rw [hdot]
  simp only
  rw [if_pos (by omega)]
  rw [show (mcs ++ ':' :: (scs ++ ['.'])).drop (mcs.length + 1) = scs ++ ['.']
    from List.drop_append 1]
  rw [show mcs.length + scs.length + 1 - mcs.length = scs.length + 1 from by omega]
  rw [show (scs ++ ['.']).take (scs.length + 1) = scs ++ ['.'] from by
    rw [show scs.length + 1 = (scs ++ ['.']).length from by simp]
    exact List.take_length _]
  rw [hps]
  simp only
  rw [show (mcs ++ ':' :: (scs ++ ['.'])).drop (mcs.length + scs.length + 1 + 1) = []
    from by
      rw [hshape]
      rw [show mcs.length + scs.length + 1 + 1 = (mcs ++ ':' :: scs).length + 1 from by
        simp only [List.length_append, List.length_cons]; omega]
      rw [List.drop_append 1]
      rfl]
  rfl

/-- Modelled from the spec: the time formats the spec's words accept — a bare
integer number of whole seconds (a digit string), or `MM:SS[.mmm]` with
minutes in 0..99, seconds in 0..59 and 1-3 fractional digits.  This is the
comparison definition used to exhibit inputs outside the spec's language that
the code nevertheless accepts. -/
def specTimeFormat (cs : Str) : Bool :=
  let isDigits := fun (l : Str) => !l.isEmpty && l.all isDigitChar
  if isDigits cs then true
  else
    match cs.findIdx? (fun c => c == ':') with
    | none => false
    | some sep =>
      let mm := cs.take sep
      let rest := cs.drop (sep + 1)
      match rest.findIdx? (fun c => c == '.') with
      | none =>
        isDigits mm && isDigits rest &&
          decide (natOfDigits mm ≤ 99) && decide (natOfDigits rest ≤ 59)
      | some d2 =>
        let ss := rest.take d2
        let ff := rest.drop (d2 + 1)
        isDigits mm && isDigits ss && isDigits ff &&
          decide (natOfDigits mm ≤ 99) && decide (natOfDigits ss ≤ 59) &&
          decide (1 ≤ ff.length) && decide (ff.length ≤ 3)

/-- C4 counterexample: `90.5` is neither a bare integer nor of `MM:SS[.mmm]`
form — by the claim, a violation that must leave the field unchanged — yet the
code accepts it as 90000 ms and overwrites the field, because the underlying
`std::stoi` stops at the first non-digit and `"90.5"` contains no colon. -/
theorem claim4_counterexample :
    specTimeFormat ("90.5".toList) = false ∧
    readTimeValue ("90.5".toList) = .ok 90000 ∧
    applyTime (readTimeValue ("90.5".toList)) 0 = 90000 := by
  refine ⟨by decide, by decide, by decide⟩

/-- C4 (amended): valid inputs — bare seconds, `MM:SS`, `MM:SS.m[mm]` with
minutes 0..99 and seconds 0..59 — parse to
`minutes*60000 + seconds*1000 + milliseconds` with the fractional digits
scaled per digit count; range violations (minutes ≥ 100, seconds ≥ 60, 0 or
more than 3 fractional digits) fail and leave the field unchanged; but
because the integer parser ignores trailing non-digits, strings outside the
format (such as `90.5`) can still be accepted.  The stated examples hold. -/
theorem claim4_readTime :
    (∀ mcs scs, mcs ≠ [] → scs ≠ [] →
      (∀ c ∈ mcs, isDigitChar c = true) → (∀ c ∈ scs, isDigitChar c = true) →
      natOfDigits mcs ≤ 99 → natOfDigits scs ≤ 59 →
      readTimeValue (mcs ++ ':' :: scs)
        = .ok ((natOfDigits mcs : Int) * 60000 + (natOfDigits scs : Int) * 1000)) ∧
    (∀ mcs scs fcs k, mcs ≠ [] → scs ≠ [] → fcs ≠ [] →
      (∀ c ∈ mcs, isDigitChar c = true) → (∀ c ∈ scs, isDigitChar c = true) →
      (∀ c ∈ fcs, isDigitChar c = true) →
      natOfDigits mcs ≤ 99 → natOfDigits scs ≤ 59 →
      msecScale fcs.length = some k →
      readTimeValue (mcs ++ ':' :: (scs ++ '.' :: fcs))
        = .ok ((natOfDigits mcs : Int) * 60000 + (natOfDigits scs : Int) * 1000
            + (natOfDigits fcs : Int) * k)) ∧
    (∀ dcs, dcs ≠ [] → (∀ c ∈ dcs, isDigitChar c = true) →
      natOfDigits dcs ≤ 2147483 →
      readTimeValue dcs = .ok ((natOfDigits dcs : Int) * 1000)) ∧
    (∀ mcs rest, mcs ≠ [] → (∀ c ∈ mcs, isDigitChar c = true) →
      100 ≤ natOfDigits mcs → (natOfDigits mcs : Int) ≤ int32Max →
      readTimeValue (mcs ++ ':' :: rest) = .invalid) ∧
    (∀ mcs scs, mcs ≠ [] → scs ≠ [] →
      (∀ c ∈ mcs, isDigitChar c = true) → (∀ c ∈ scs, isDigitChar c = true) →
      natOfDigits mcs ≤ 99 → 60 ≤ natOfDigits scs → (natOfDigits scs : Int) ≤ int32Max →
      readTimeValue (mcs ++ ':' :: scs) = .invalid) ∧
    (∀ mcs scs fcs, mcs ≠ [] → scs ≠ [] → fcs ≠ [] →
      (∀ c ∈ mcs, isDigitChar c = true) → (∀ c ∈ scs, isDigitChar c = true) →
      (∀ c ∈ fcs, isDigitChar c = true) →
      natOfDigits mcs ≤ 99 → natOfDigits scs ≤ 59 →
      4 ≤ fcs.length → (natOfDigits fcs : Int) ≤ int32Max →
      readTimeValue (mcs ++ ':' :: (scs ++ '.' :: fcs)) = .invalid) ∧
    (∀ mcs scs, mcs ≠ [] → scs ≠ [] →
      (∀ c ∈ mcs, isDigitChar c = true) → (∀ c ∈ scs, isDigitChar c = true) →
      natOfDigits mcs ≤ 99 → natOfDigits scs ≤ 59 →
      readTimeValue (mcs ++ ':' :: (scs ++ ['.'])) = .parseFail) ∧
    (∀ f, applyTime .invalid f = f ∧ applyTime .parseFail f = f ∧
      applyTime .noValue f = f) ∧
    (∀ h key v, getValue h key = some v → v ≠ [] →
      (readTime h key).1 = readTimeValue v ∧ (readTime h key).2.1 = h) ∧
    (readTimeValue ("1:30.500".toList) = .ok 90500 ∧
      readTimeValue ("90".toList) = .ok 90000 ∧
      readTimeValue ("99:59.999".toList) = .ok 5999999 ∧
      readTimeValue ("100:00".toList) = .invalid ∧
      readTimeValue ("1:60".toList) = .invalid ∧
      readTimeValue ("90.5".toList) = .ok 90000) := by
  refine ⟨readTimeValue_mmss, ?_, readTimeValue_bare, readTimeValue_min_out,
    readTimeValue_sec_out, readTimeValue_frac_long, readTimeValue_frac_empty,
    ?_, ?_, ?_⟩
  · intro mcs scs fcs k hm hs hf hdm hds hdf hm99 hs59 hk
    exact readTimeValue_mmss_frac mcs scs fcs k hm hs hf hdm hds hdf hm99 hs59 hk
  · intro f
    exact ⟨rfl, rfl, rfl⟩
  · intro h key v hv hne
    have hrs : readString h key = (v, h) := by simp [readString, hv]
    constructor <;> simp [readTime, hrs, hne]
  · refine ⟨by decide, by decide, by decide, by decide, by decide, by decide⟩

/-- Witness for C4 at concrete inputs: the structured parse of `1:30` and the
range rejection of `100:00` obtained from the theorem itself. -/
theorem claim4_witness :
    readTimeValue ("1:30".toList) = .ok 90000 ∧
    readTimeValue ("100:00".toList) = .invalid := by
  constructor
  · have t := claim4_readTime.1 ['1'] ['3', '0'] (by decide) (by decide)
      (by decide) (by decide) (by decide) (by decide)
    rw [show ("1:30".toList : Str) = ['1'] ++ ':' :: ['3', '0'] from rfl, t]
    decide
  · have t := claim4_readTime.2.2.2.1 ['1', '0', '0'] ['0', '0'] (by decide)
      (by decide) (by decide) (by decide)
    rw [show ("100:00".toList : Str) = ['1', '0', '0'] ++ ':' :: ['0', '0'] from rfl, t]

/-! ## Round-trip of parse and write (C5) -/

def noNL (cs : Str) : Bool := cs.all (fun c => c != '\n')

/-- An entry whose serialized line re-parses to itself: comment entries carry
a non-empty `;`/`#` line; key/value entries have a non-empty key free of `=`
that does not start like a comment or header nor end in a space, and a value
that does not start with a space (the shapes `iniHandler::parseKey` itself
produces).  Newlines are excluded everywhere since a line cannot contain the
`getline` delimiter. -/
def validEntry (e : Entry) : Bool :=
  if e.key.isEmpty then
    !e.value.isEmpty &&
      (e.value.head? == some ';' || e.value.head? == some '#') && noNL e.value
  else
    noNL e.key && noNL e.value &&
    e.key.all (fun c => c != '=') &&
    !(e.key.head? == some ';') && !(e.key.head? == some '#') &&
    !(e.key.head? == some '[') &&
    !(e.key.getLast? == some ' ') &&
    !(e.value.head? == some ' ')

def validSection (s : SectionT) : Bool :=
  s.1.all (fun c => c != ']') && noNL s.1 && s.2.all validEntry

def validDoc (doc : List SectionT) : Bool := doc.all validSection

theorem parseKey_writeEntry (e : Entry) (hk : e.key ≠ []) (hval : validEntry e = true) :
    parseKey (e.key ++ ' ' :: '=' :: ' ' :: e.value) = some e := by
  have hkemp : e.key.isEmpty = false := by
    cases hke : e.key with
    | nil => exact absurd hke hk
    | cons a t => rfl
  rw [validEntry, hkemp] at hval
  simp only [Bool.false_eq_true, if_false, Bool.and_eq_true, Bool.not_eq_true',
    beq_eq_false_iff_ne, ne_eq] at hval
  obtain ⟨⟨⟨⟨⟨⟨⟨-, -⟩, hnoeq⟩, -⟩, -⟩, -⟩, hlast⟩, hvhead⟩ := hval
  have hsh : e.key ++ ' ' :: '=' :: ' ' :: e.value
      = (e.key ++ [' ']) ++ '=' :: ' ' :: e.value := by simp
  have hpos : (e.key ++ ' ' :: '=' :: ' ' :: e.value).findIdx? (fun c => c == '=')
      = some (e.key.length + 1) := by
    rw [hsh, findIdx?_append_of_none _ _ _ (by
      intro x hx
      rcases List.mem_append.mp hx with h1 | h2
      · have := List.all_eq_true.mp hnoeq x h1
        simpa using this
      · rcases List.mem_cons.mp h2 with rfl | h3
        · decide
        · cases h3)]
    simp
  unfold parseKey
  rw [hpos]
  simp only
  rw [if_neg (by omega)]
  rw [show (e.key ++ ' ' :: '=' :: ' ' :: e.value).take (e.key.length + 1)
      = e.key ++ [' '] from by
    rw [hsh]
    exact List.take_left' (by simp)]
  rw [show (e.key ++ [' ']).reverse = ' ' :: e.key.reverse from by
    rw [List.reverse_append]; rfl]
  have hrevne : e.key.reverse ≠ [] := by
    intro hcon
    exact hk (by simpa using congrArg List.reverse hcon)
  obtain ⟨c0, t0, hrev⟩ := List.exists_cons_of_ne_nil hrevne
  have hc0 : c0 ≠ ' ' := by
    intro hcon
    apply hlast
    rw [← List.head?_reverse, hrev, hcon]
    rfl
  rw [hrev]
  simp only [List.findIdx?_cons]
  rw [show (' ' != ' ') = false from by decide]
  simp only [Bool.false_eq_true, if_false]
  rw [show (c0 != ' ') = true from by simpa using hc0]
  simp only [if_true, Nat.zero_add]
  have hlen : (e.key ++ [' ']).length - 1 = e.key.length := by simp
  rw [show (e.key ++ ' ' :: '=' :: ' ' :: e.value).take ((e.key ++ [' ']).length - 1)
      = e.key from by rw [hlen]; exact List.take_left' rfl]
  rw [show (e.key ++ ' ' :: '=' :: ' ' :: e.value).drop (e.key.length + 1 + 1)
      = ' ' :: e.value from by
    rw [show e.key.length + 1 + 1 = e.key.length + 2 from rfl]
    exact List.drop_append 2]
  simp only [List.findIdx?_cons]
  rw [show (' ' != ' ') = false from by decide]
  simp only [Bool.false_eq_true, if_false]
  cases hvc : e.value with
  | nil =>
    simp only [List.findIdx?_nil, Option.map_none']
    exact congrArg some (by cases e; simp_all)
  | cons v0 vt =>
    have hv0 : v0 ≠ ' ' := by
      intro hcon
      apply hvhead
      rw [hvc, hcon]
      rfl
    simp only [List.findIdx?_start_succ, List.findIdx?_cons, Nat.zero_add]
    rw [show (v0 != ' ') = true from by simpa using hv0]
    simp only [if_true, Option.map_some', List.drop_succ_cons, List.drop_zero]
    exact congrArg some (by cases e; simp_all)

theorem appendToLast_cons (a : SectionT) (l : List SectionT) (hl : l ≠ []) (e : Entry) :
    appendToLast (a :: l) e = a :: appendToLast l e := by
  cases l with
  | nil => exact absurd rfl hl
  | cons b t => rfl

theorem appendToLast_snoc (acc : List SectionT) (s : SectionT) (e : Entry) :
    appendToLast (acc ++ [s]) e = acc ++ [(s.1, s.2 ++ [e])] := by
  induction acc with
  | nil => rfl
  | cons a t ih =>
    rw [List.cons_append, appendToLast_cons a (t ++ [s]) (by simp) e, ih]
    rfl

theorem parseLine_header (secs : List SectionT) (name : Str)
    (hnb : name.all (fun c => c != ']') = true) :
    parseLine secs (('[' :: name) ++ [']']) = secs ++ [(name, [])] := by
  have hfind : (('[' :: name) ++ [']']).findIdx? (fun c => c == ']')
      = some (name.length + 1) := by
    rw [List.cons_append, List.findIdx?_cons]
    rw [show ('[' == ']') = false from by decide]
    simp only [Bool.false_eq_true, if_false, List.findIdx?_start_succ]
    rw [findIdx?_append_of_none _ _ _ (by
      intro x hx
      have := List.all_eq_true.mp hnb x hx
      simpa using this)]
    simp [Nat.add_comm]
  have hsec : parseSection (('[' :: name) ++ [']']) = some name := by
    unfold parseSection
    rw [hfind]
    simp only [List.cons_append, List.drop_succ_cons, List.drop_zero,
      Nat.add_sub_cancel]
    rw [List.take_left' rfl]
  unfold parseLine
  simp only [List.cons_append]
  rw [show ('[' == ';') = false from by decide, show ('[' == '#') = false from by decide]
  simp only [Bool.false_eq_true, Bool.or_self, if_false]
  rw [show ('[' == '[') = true from by decide]
  simp only [if_true]
  rw [show parseSection ('[' :: (name ++ [']'])) = some name from hsec]

theorem parseLine_comment (secs : List SectionT) (v : Str) (c : Char) (t : Str)
    (hv : v = c :: t) (hc : (c == ';') = true ∨ (c == '#') = true) :
    parseLine secs v = appendToLast secs ⟨[], v⟩ := by
  subst hv
  unfold parseLine
  rcases hc with h | h <;> simp [h]

theorem parseLine_kv (secs : List SectionT) (hne : secs ≠ []) (e : Entry)
    (hk : e.key ≠ []) (hval : validEntry e = true) :
    parseLine secs (writeEntry e) = appendToLast secs e := by
  have hkemp : e.key.isEmpty = false := by
    cases hke : e.key with
    | nil => exact absurd hke hk
    | cons a t => rfl
  have hwe : writeEntry e = e.key ++ ' ' :: '=' :: ' ' :: e.value := by
    unfold writeEntry
    rw [hkemp]
    rfl
  obtain ⟨k0, kt, hkc⟩ := List.exists_cons_of_ne_nil hk
  have hvv := hval
  rw [validEntry, hkemp] at hvv
  simp only [Bool.false_eq_true, if_false, Bool.and_eq_true, Bool.not_eq_true',
    beq_eq_false_iff_ne, ne_eq] at hvv
  obtain ⟨⟨⟨⟨⟨⟨⟨-, -⟩, -⟩, hs1⟩, hs2⟩, hs3⟩, -⟩, -⟩ := hvv
  rw [hkc] at hs1 hs2 hs3
  have hk0semi : (k0 == ';') = false := by
    simp only [beq_eq_false_iff_ne, ne_eq]
    intro hcon
    exact hs1 (by rw [hcon]; rfl)
  have hk0hash : (k0 == '#') = false := by
    simp only [beq_eq_false_iff_ne, ne_eq]
    intro hcon
    exact hs2 (by rw [hcon]; rfl)
  have hk0br : (k0 == '[') = false := by
    simp only [beq_eq_false_iff_ne, ne_eq]
    intro hcon
    exact hs3 (by rw [hcon]; rfl)
  have hparse := parseKey_writeEntry e hk hval
  rw [hwe, hkc]
  unfold parseLine
  simp only [List.cons_append, hk0semi, hk0hash, hk0br, Bool.or_self,
    Bool.false_eq_true, if_false]
  rw [show secs.isEmpty = false from by
    cases hsecs : secs with
    | nil => exact absurd hsecs hne
    | cons a t => rfl]
  simp only [Bool.false_eq_true, if_false]
  rw [show parseKey (k0 :: (kt ++ ' ' :: '=' :: ' ' :: e.value)) = some e from by
    rw [← List.cons_append, ← hkc]
    exact hparse]

theorem foldl_entries (name : Str) (es : List Entry) (acc : List SectionT) :
    ∀ done : List Entry, es.all validEntry = true →
    List.foldl parseLine (acc ++ [(name, done)]) (es.map writeEntry)
      = acc ++ [(name, done ++ es)] := by
  induction es with
  | nil =>
    intro done _
    simp
  | cons e es ih =>
    intro done hval
    simp only [List.all_cons, Bool.and_eq_true] at hval
    obtain ⟨hve, hves⟩ := hval
    simp only [List.map_cons, List.foldl_cons]
    have hstep : parseLine (acc ++ [(name, done)]) (writeEntry e)
        = acc ++ [(name, done ++ [e])] := by
      by_cases hke : e.key = []
      · have hwe : writeEntry e = e.value := by
          unfold writeEntry
          rw [hke]
          rfl
        have hve' := hve
        rw [validEntry, hke] at hve'
        simp only [List.isEmpty_nil, if_true, Bool.and_eq_true] at hve'
        obtain ⟨⟨hvne, hhead⟩, -⟩ := hve'
        have hvne' : e.value ≠ [] := by
          intro hcon
          rw [hcon] at hvne
          exact absurd hvne (by decide)
        obtain ⟨c, t, hvc⟩ := List.exists_cons_of_ne_nil hvne'
        have hcsh : (c == ';') = true ∨ (c == '#') = true := by
          rw [hvc] at hhead
          simp only [List.head?_cons, Bool.or_eq_true] at hhead
          rcases hhead with h | h
          · exact Or.inl (by simpa using h)
          · exact Or.inr (by simpa using h)
        rw [hwe, parseLine_comment _ e.value c t hvc hcsh]
        rw [show (⟨[], e.value⟩ : Entry) = e from by
          cases e
          simp_all]
        exact appendToLast_snoc acc (name, done) e
      · rw [parseLine_kv _ (by simp) e hke hve]
        exact appendToLast_snoc acc (name, done) e
    rw [hstep, ih (done ++ [e]) hves]
    simp

theorem foldl_writeSection (acc : List SectionT) (s : SectionT)
    (hval : validSection s = true) :
    List.foldl parseLine acc (writeSection s) = acc ++ [s] := by
  simp only [validSection, Bool.and_eq_true] at hval
  obtain ⟨⟨hname, -⟩, hes⟩ := hval
  unfold writeSection
  simp only [List.foldl_cons]
  rw [parseLine_header acc s.1 hname]
  rw [List.foldl_append]
  rw [foldl_entries s.1 s.2 acc [] hes]
  simp only [List.nil_append, List.foldl_cons, List.foldl_nil]
  rfl

theorem parse_writeLines (doc : List SectionT) :
    validDoc doc = true → ∀ acc, List.foldl parseLine acc (writeLines doc) = acc ++ doc := by
  induction doc with
  | nil =>
    intro _ acc
    simp [writeLines]
  | cons s doc ih =>
    intro hval acc
    simp only [validDoc, List.all_cons, Bool.and_eq_true] at hval
    obtain ⟨hs, hdoc⟩ := hval
    rw [show writeLines (s :: doc) = writeSection s ++ writeLines doc from rfl]
    rw [List.foldl_append, foldl_writeSection acc s hs, ih hdoc (acc ++ [s])]
    simp

theorem parseDoc_filter (lines : List Str) :
    ∀ acc, List.foldl parseLine acc lines
      = List.foldl parseLine acc (lines.filter (fun l => !l.isEmpty)) := by
  induction lines with
  | nil => intro acc; rfl
  | cons l ls ih =>
    intro acc
    cases l with
    | nil =>
      simp only [List.foldl_cons, List.filter_cons]
      rw [show (!(([] : Str).isEmpty)) = false from rfl]
      simp only [Bool.false_eq_true, if_false]
      rw [show parseLine acc [] = acc from rfl]
      exact ih acc
    | cons c t =>
      simp only [List.foldl_cons, List.filter_cons]
      rw [show (!((c :: t : Str).isEmpty)) = true from rfl]
      simp only [if_true, List.foldl_cons]
      exact ih (parseLine acc (c :: t))

/-- C5: a well-formed document — any line list whose non-blank lines are the
canonical serialization of a valid section/entry list — parses to exactly
that content, and serializing it back reproduces the same section names,
key/value pairs and comment lines in the same order; blank lines are the only
loss (both comparisons are modulo blank lines, which `parseLine` skips and
`write` re-emits once after each section). -/
theorem claim5_roundtrip (lines : List Str) (doc : List SectionT)
    (hdoc : validDoc doc = true)
    (hlines : lines.filter (fun l => !l.isEmpty)
      = (writeLines doc).filter (fun l => !l.isEmpty)) :
    parseDoc lines = doc ∧
    (writeLines (parseDoc lines)).filter (fun l => !l.isEmpty)
      = lines.filter (fun l => !l.isEmpty) := by
  have h1 : parseDoc lines = doc := by
    unfold parseDoc
    rw [parseDoc_filter lines [], hlines, ← parseDoc_filter (writeLines doc) []]
    simpa using parse_writeLines doc hdoc []
  exact ⟨h1, by rw [h1, hlines]⟩

/-- Witness for C5: a one-section document with a key/value pair and a
comment, with an extra interior blank line in the input. -/
theorem claim5_witness :
    parseDoc [['[', 'A', ']'], [], ['k', ' ', '=', ' ', 'v'], [';', ' ', 'c'], []]
      = [(['A'], [⟨['k'], ['v']⟩, ⟨[], [';', ' ', 'c']⟩])] ∧
    (writeLines (parseDoc
        [['[', 'A', ']'], [], ['k', ' ', '=', ' ', 'v'], [';', ' ', 'c'], []])).filter
        (fun l => !l.isEmpty)
      = [['[', 'A', ']'], ['k', ' ', '=', ' ', 'v'], [';', ' ', 'c']] := by
  have t := claim5_roundtrip
    [['[', 'A', ']'], [], ['k', ' ', '=', ' ', 'v'], [';', ' ', 'c'], []]
    [(['A'], [⟨['k'], ['v']⟩, ⟨[], [';', ' ', 'c']⟩])]
    (by decide) (by decide)
  refine ⟨t.1, ?_⟩
  rw [t.2]
  decide
